import Mathlib

/-!
Verification of the pffft benchmark harness (src/bench_pffft.c).

The C file is shallowly embedded below.  IEEE float/double values are
modelled as exact rationals (ℚ): every tolerance constant of the source
(1e-3, 1e-5, 0.25, 0.150, 0.01, 12345.0) is an exactly representable
decimal, and the claims under study are about control flow and exact
formulas, not rounding.  The FFT kernels themselves (pffft.c, fftpack.c)
are not part of the repository checkout; where a claim depends on them
they are modelled from the spec and marked so in the doc comment.
-/

namespace BenchPffft

/-- C `fabs` on our rational model of floats. -/
def fabs (q : ℚ) : ℚ := if q < 0 then -q else q

/-- Fuel-driven worker for `Log2`: the C loop `while (v >>= 1) r++;`
(bench_pffft.c lines 174-185).  One shift per step, so at most `v` steps;
passing `v` itself as fuel makes the recursion structural. -/
def Log2Go : Nat → Nat → Nat
  | 0, _ => 0
  | fuel + 1, v => if v < 2 then 0 else Log2Go fuel (v / 2) + 1

/-- `unsigned Log2(unsigned v)` of bench_pffft.c: the floor of log2, the
number of right shifts until the value vanishes. -/
def Log2 (v : Nat) : Nat := Log2Go v v

/-- A C `(int)` cast of a nonnegative-or-negative double: truncation toward
zero (floor for nonnegative values, ceiling for negative ones). -/
def cIntOf (q : ℚ) : ℤ := if q < 0 then -⌊-q⌋ else ⌊q⌋

/-! ## The backend and measurement enumerations (lines 65-126) -/

/-- The eight FFT backends of the `ALGO_*` enum (lines 66-75). -/
inductive Algo
  | fftpack
  | veclib
  | fftwEstim
  | fftwAuto
  | green
  | kiss
  | pffftU
  | pffftO
deriving DecidableEq, Fintype

/-- The seven per-cell measurement fields of the `TYPE_*` enum (lines 78-86). -/
inductive MeasType
  | prep
  | durNs
  | durFastest
  | relPffft
  | iter
  | mflops
  | durTot
deriving DecidableEq, Fintype

/-- The compile-time configuration (HAVE_VECLIB / HAVE_FFTW / HAVE_GREEN_FFTS /
HAVE_KISS_FFT) together with the two run-time facts `benchmark_ffts` branches
on: whether `pffft_new_setup` succeeded (lines 799, 829) and whether the
FFTW-auto block used `FFTW_MEASURE` (line 638). -/
structure BenchConfig where
  haveVeclib : Bool
  haveFftw : Bool
  haveGreen : Bool
  haveKiss : Bool
  pffftSetupOk : Bool
  fftwAutoMeasured : Bool
deriving DecidableEq

/-- `compiledInAlgo[]` (lines 101-126): which backends are compiled in. -/
def compiledInAlgo (cfg : BenchConfig) : Algo → Bool
  | .fftpack => true
  | .veclib => cfg.haveVeclib
  | .fftwEstim => cfg.haveFftw
  | .fftwAuto => cfg.haveFftw
  | .green => cfg.haveGreen
  | .kiss => cfg.haveKiss
  | .pffftU => true
  | .pffftO => true

/-! ## Sentinel checking in the timing loops (claim C2) -/

/-- `const float checkVal = 12345.0F;` (line 473). -/
def checkVal : ℚ := 12345

/-- One `assert( X[Nmax] == checkVal )`: the assert passes (returns `true`)
exactly when the sentinel cell still holds `checkVal`; a failed assert
aborts the process. -/
def sentinelAssert (x : ℚ) : Bool := x == checkVal

/-- An event inside one iteration of a timing loop: a transform call or a
sentinel assert. -/
inductive Ev
  | call
  | check
deriving DecidableEq

/-- The body of the inner timing loop of `benchmark_ffts` for each backend
and domain (`cplx = true` is the complex domain), transcribed event by
event from the source:
fftpack lines 505-518, veclib lines 550-563, fftw(estim) lines 605-610,
fftw(auto) lines 665-670, green complex lines 706-711, green real lines
713-714 (two bare transform calls, no asserts), kiss lines 759-771,
pffft-u lines 804-809, pffft-o lines 834-839. -/
def loopBody : Algo → Bool → List Ev
  | .fftpack, _ => [.check, .call, .check, .call, .check]
  | .veclib, _ => [.check, .call, .check, .call, .check]
  | .fftwEstim, _ => [.check, .call, .check, .call, .check]
  | .fftwAuto, _ => [.check, .call, .check, .call, .check]
  | .green, true => [.check, .call, .check, .call, .check]
  | .green, false => [.call, .call]
  | .kiss, _ => [.check, .call, .check, .call, .check]
  | .pffftU, _ => [.check, .call, .check, .call, .check]
  | .pffftO, _ => [.check, .call, .check, .call, .check]

/-- Whether every transform call of a loop body is immediately followed by a
sentinel assert. -/
def checkedAfterEachCall : List Ev → Bool
  | [] => true
  | Ev.check :: rest => checkedAfterEachCall rest
  | Ev.call :: rest =>
    match rest with
    | Ev.check :: _ => checkedAfterEachCall rest
    | _ => false

/-! ## The validation harness `pffft_validate_N` (claims C1, C5) -/

/-- A statement of the mismatch branches inside `pffft_validate_N`. -/
inductive Stmt
  | printMsg
  | breakStmt
  | exitStmt
deriving DecidableEq

/-- What executing a straight-line branch body does: fall through to the
next loop iteration, leave the loop, or terminate the process.  `break`
and `exit` transfer control, so nothing after them runs. -/
inductive Outcome
  | fellThrough
  | broke
  | exited
deriving DecidableEq

def execStmts : List Stmt → Outcome
  | [] => .fellThrough
  | Stmt.printMsg :: rest => execStmts rest
  | Stmt.breakStmt :: _ => .broke
  | Stmt.exitStmt :: _ => .exited

/-- The branch body of the forward-mismatch check (lines 286-287):
`printf(...); exit(1);`. -/
def forwardMismatchBody : List Stmt := [.printMsg, .exitStmt]

/-- The branch body of the round-trip (inverse-FFT) mismatch check
(lines 303-304), verbatim statement order: `printf(...); break;` and then
an `exit(1)` that sits after the `break` on the same line. -/
def roundtripMismatchBody : List Stmt := [.printMsg, .breakStmt, .exitStmt]

/-- The round-trip comparison loop (lines 301-306) over the pairs
`(in[k], out[k])` after the inverse transform was scaled by `1/N`:
whenever `fabs(in[k] - out[k]) > 1e-3 * ref_max` the branch body runs.
Returns whether the process was terminated. -/
def roundtripCheckAborts (refMax : ℚ) : List (ℚ × ℚ) → Bool
  | [] => false
  | (i, o) :: rest =>
    if (1 / 1000) * refMax < fabs (i - o) then
      match execStmts roundtripMismatchBody with
      | .exited => true
      | .broke => false
      | .fellThrough => roundtripCheckAborts refMax rest
    else roundtripCheckAborts refMax rest

/-- The forward comparison loop (lines 284-289) over the pairs
`(ref[k], out[k])`: whenever `!(fabs(ref[k] - out[k]) < 1e-3*ref_max)`
its branch body runs.  Returns whether the process was terminated. -/
def forwardCheckAborts (refMax : ℚ) : List (ℚ × ℚ) → Bool
  | [] => false
  | (r, o) :: rest =>
    if ¬ fabs (r - o) < (1 / 1000) * refMax then
      match execStmts forwardMismatchBody with
      | .exited => true
      | .broke => false
      | .fellThrough => forwardCheckAborts refMax rest
    else forwardCheckAborts refMax rest

/-! ### The convolution-theorem check (lines 309-337) -/

/-- The expected-value loop of lines 318-327 over the canonically reordered
spectrum, taken as a list of `(ar, ai)` pairs with `k` the float index of
the pair: `if (cplx || k > 0)` the pair is complex-squared, otherwise
(the first pair of a real-domain spectrum, the packed DC and Nyquist bins)
the two components are squared arithmetically. -/
def squarePairs (cplx : Bool) : ℕ → List (ℚ × ℚ) → List (ℚ × ℚ)
  | _, [] => []
  | k, (ar, ai) :: rest =>
    (if cplx = true ∨ 0 < k then (ar * ar - ai * ai, 2 * ar * ai)
     else (ar * ar, ai * ai)) :: squarePairs cplx (k + 2) rest

/-- The spec's words: the elementwise complex square of a spectrum. -/
def complexSquareList (l : List (ℚ × ℚ)) : List (ℚ × ℚ) :=
  l.map fun p => (p.1 * p.1 - p.2 * p.2, 2 * p.1 * p.2)

/-- Flatten a list of `(re, im)` pairs back into the float array layout. -/
def unpair : List (ℚ × ℚ) → List ℚ
  | [] => []
  | (a, b) :: r => a :: b :: unpair r

/-- The float array `tmp` after the expected-value loop: the reference
spectrum squared with the real-domain special case for the first pair. -/
def expectedSq (cplx : Bool) (spec : List (ℚ × ℚ)) : List ℚ :=
  unpair (squarePairs cplx 0 spec)

/-- `conv_max` of lines 329-333: the running maximum of `fabs(tmp[k])`
over the expected squared spectrum, starting from 0. -/
def conv_max (cplx : Bool) (spec : List (ℚ × ℚ)) : ℚ :=
  ((expectedSq cplx spec).map fabs).foldl max 0

/-- `conv_err` of lines 329-333: the running maximum of
`fabs(tmp[k] - tmp2[k])` against the reordered zconvolve output `act`. -/
def conv_err (cplx : Bool) (spec : List (ℚ × ℚ)) (act : List ℚ) : ℚ :=
  (((expectedSq cplx spec).zip act).map fun p => fabs (p.1 - p.2)).foldl max 0

/-- Line 334-336: `if (conv_err > 1e-5*conv_max) { printf(...); exit(1); }`.
Returns whether the process aborts. -/
def convAborts (cplx : Bool) (spec : List (ℚ × ℚ)) (act : List ℚ) : Bool :=
  decide ((1 / 100000) * conv_max cplx spec < conv_err cplx spec act)

/-! ### Reordering and aliasing (claims C6, C7) -/

/-- `PFFFT_FORWARD` / `PFFFT_BACKWARD` as passed to `pffft_zreorder`. -/
inductive Direction
  | forward
  | backward
deriving DecidableEq

/-- Modelled from the spec: `pffft_zreorder` is implemented in pffft.c,
which is not under src/.  Per the spec's glossary the native/packed layout
and the canonical/ordered layout hold the same `N` float coefficients, so
reordering toward canonical order applies a fixed layout permutation `σ`
of the indices and reordering back toward native order applies its
inverse. -/
def zreorder {n : ℕ} (σ : Equiv.Perm (Fin n)) (dir : Direction)
    (x : Fin n → ℚ) : Fin n → ℚ :=
  match dir with
  | .forward => fun i => x (σ i)
  | .backward => fun i => x (σ.symm i)

/-- The aligned buffers of `pffft_validate_N` (lines 212, 217-221). -/
structure Bufs where
  inp : List ℚ
  tmp : List ℚ
  tmp2 : List ℚ
  out : List ℚ

/-- Modelled from the spec: the transforms live in pffft.c (absent from
src/); per the spec's determinism clause a transform is a pure function
`f` of the contents of its input buffer, and a call with output aliased to
input overwrites the buffer with `f` of its current contents.
This is the forward determinism check of lines 256-262:
transform `in` into `tmp`, save `tmp` into `tmp2`, copy `in` back into
`tmp`, transform `tmp` in place; the harness then asserts
`tmp2[k] == tmp[k]` for every k. -/
def forwardAliasCheck (f : List ℚ → List ℚ) (b : Bufs) : Bufs :=
  let b1 : Bufs := { b with tmp := f b.inp }
  let b2 : Bufs := { b1 with tmp2 := b1.tmp }
  let b3 : Bufs := { b2 with tmp := b2.inp }
  { b3 with tmp := f b3.tmp }

/-- The backward determinism check of lines 291-298: transform `tmp` into
`out`, save `out` into `tmp2`, copy `tmp` into `out`, transform `out` in
place; the harness then asserts `tmp2[k] == out[k]` for every k.
`g` is the backward transform, pure for the same modelled reason. -/
def backwardAliasCheck (g : List ℚ → List ℚ) (b : Bufs) : Bufs :=
  let b1 : Bufs := { b with out := g b.tmp }
  let b2 : Bufs := { b1 with tmp2 := b1.out }
  let b3 : Bufs := { b2 with out := b2.tmp }
  { b3 with out := g b3.out }

/-! ## The calibration probe `cal_benchmark` (lines 412-447; claims C3, C10) -/

/-- The do-while loop of lines 431-438.  One step runs a block of 512
forward+inverse transform pairs (`iter` grows by 512), then samples the
clock once; `clock m` is the value `uclock_sec()` returns after block `m`.
The loop repeats while the sample is below `tstop`.  `fuel` bounds the
number of blocks so the recursion is structural; `none` means the fuel ran
out before the clock reached `tstop`. -/
def calLoop (clock : ℕ → ℚ) (tstop : ℚ) : ℕ → ℕ → ℕ → Option (ℕ × ℕ)
  | 0, _, _ => none
  | fuel + 1, iter, j =>
    if clock j < tstop then calLoop clock tstop fuel (iter + 512) (j + 1)
    else some (iter + 512, j)

/-- `cal_benchmark(N, cplx)` (lines 412-447): `t0` is the first
`uclock_sec()` sample, `tstop = t0 + 0.25`, then the block loop; on exit
with `iter` pairs done and final sample `t1 = clock j` it returns
`nI / T` where `T = t1 - t0` and `nI = iter * (log2N * N)`.
The transform calls themselves touch no state the return value reads, so
the embedding keeps only the loop and the final formula; the real and
complex probes run this same code. -/
def cal_benchmark (N : ℕ) (clock : ℕ → ℚ) (t0 : ℚ) (fuel : ℕ) : Option ℚ :=
  (calLoop clock (t0 + 1 / 4) fuel 0 0).map fun p =>
    ((p.1 : ℚ) * ((Log2 N : ℚ) * (N : ℚ))) / (clock p.2 - t0)

/-! ## `benchmark_ffts` iteration sizing (lines 468-471; claim C4) -/

/-- `numIter = max_test_duration * iterCal / ( log2N * N )` (line 469),
with the budget left as a parameter (the source fixes it to 0.150). -/
def numIter (budget iterCal : ℚ) (N : ℕ) : ℚ :=
  budget * iterCal / ((Log2 N : ℚ) * (N : ℚ))

/-- `step_iter = MAX(1, ((int)(0.01 * numIter)))` (line 470). -/
def step_iter (budget iterCal : ℚ) (N : ℕ) : ℤ :=
  max 1 (cIntOf ((1 / 100) * numIter budget iterCal N))

/-- `max_iter = MAX(1, ((int)numIter))` (line 471). -/
def max_iter (budget iterCal : ℚ) (N : ℕ) : ℤ :=
  max 1 (cIntOf (numIter budget iterCal N))

/-! ## The measurement table of `benchmark_ffts` (claims C8, C9) -/

/-- Which backends actually run a measured timing loop in one
`benchmark_ffts` call: fftpack always (line 493); the optional backends
when compiled in; fftw-auto only when its `FFTW_MEASURE` branch is taken
(line 647, the `FFTW_ESTIMATE` branch at lines 640-646 copies values and
sets no `haveAlgo`); both pffft variants when `pffft_new_setup` succeeds
(lines 799, 829). -/
def measuredInRun (cfg : BenchConfig) : Algo → Bool
  | .fftpack => true
  | .veclib => cfg.haveVeclib
  | .fftwEstim => cfg.haveFftw
  | .fftwAuto => cfg.haveFftw && cfg.fftwAutoMeasured
  | .green => cfg.haveGreen
  | .kiss => cfg.haveKiss
  | .pffftU => cfg.pffftSetupOk
  | .pffftO => cfg.pffftSetupOk

/-- The `tmeas` table after the per-backend blocks of `benchmark_ffts`:
initialized to 0.0 everywhere (lines 486-490); a measured backend writes
its five fields (ITER, MFLOPS, DUR_TOT, DUR_NS, PREP — e.g. lines
527-531), with the abstract timing results given by `meas`; the
fftw-auto `FFTW_ESTIMATE` branch copies ITER, DUR_TOT, DUR_NS and PREP
from the fftw-estim column but not MFLOPS (lines 643-646); every other
cell keeps its zero. -/
def mainTable (cfg : BenchConfig) (meas : Algo → MeasType → ℚ) :
    MeasType → Algo → ℚ :=
  fun t a =>
    if measuredInRun cfg a = true then
      if t = MeasType.iter ∨ t = MeasType.mflops ∨ t = MeasType.durTot ∨
          t = MeasType.durNs ∨ t = MeasType.prep then meas a t else 0
    else if a = Algo.fftwAuto ∧ cfg.haveFftw = true then
      if t = MeasType.iter ∨ t = MeasType.durTot ∨ t = MeasType.durNs ∨
          t = MeasType.prep then meas Algo.fftwEstim t else 0
    else 0

/-- The backend order of the `ALGO_*` enum, as the relative-metric loops
iterate it (`for iter = 0 .. NUM_FFT_ALGOS-1`). -/
def algosList : List Algo :=
  [.fftpack, .veclib, .fftwEstim, .fftwAuto, .green, .kiss, .pffftU, .pffftO]

/-- `Tfastest` (lines 869-874): the smallest nonzero DUR_NS entry, found by
the source's running-minimum scan starting from 0.0. -/
def TfastestOf (tbl : MeasType → Algo → ℚ) : ℚ :=
  algosList.foldl
    (fun cur a =>
      if cur = 0 ∨ (tbl MeasType.durNs a ≠ 0 ∧ tbl MeasType.durNs a < cur)
      then tbl MeasType.durNs a else cur)
    0

/-- The table after the relative-metric passes (lines 869-904): for cells
with `haveAlgo` set and positive DUR_NS, DUR_FASTEST becomes
`durNs / Tfastest` (only when `Tfastest > 0`) and REL_PFFFT becomes
`durNs / durNs[ALGO_PFFFT_O]`; all other cells keep their `mainTable`
value. -/
def finalTable (cfg : BenchConfig) (meas : Algo → MeasType → ℚ) :
    MeasType → Algo → ℚ :=
  fun t a =>
    if t = MeasType.durFastest then
      if 0 < TfastestOf (mainTable cfg meas) ∧ measuredInRun cfg a = true ∧
          0 < mainTable cfg meas MeasType.durNs a then
        mainTable cfg meas MeasType.durNs a / TfastestOf (mainTable cfg meas)
      else mainTable cfg meas t a
    else if t = MeasType.relPffft then
      if measuredInRun cfg a = true ∧ 0 < mainTable cfg meas MeasType.durNs a then
        mainTable cfg meas MeasType.durNs a /
          mainTable cfg meas MeasType.durNs Algo.pffftO
      else mainTable cfg meas t a
    else mainTable cfg meas t a

/-- A backend is not applicable for a cell when it is absent from the build
or its plan preparation failed — the situations where `benchmark_ffts`
records nothing for it. -/
def notApplicable (cfg : BenchConfig) : Algo → Bool
  | .fftpack => false
  | .veclib => !cfg.haveVeclib
  | .fftwEstim => !cfg.haveFftw
  | .fftwAuto => !cfg.haveFftw
  | .green => !cfg.haveGreen
  | .kiss => !cfg.haveKiss
  | .pffftU => !cfg.pffftSetupOk
  | .pffftO => !cfg.pffftSetupOk

/-! ## The sweeps of `pffft_validate` and `main` (claim C9) -/

/-- `Ntest[]` of `pffft_validate` (line 352), 0-terminated. -/
def NtestArr : List ℤ :=
  [16, 32, 64, 96, 128, 160, 192, 256, 288, 384, 5 * 96, 512, 576, 5 * 128,
   800, 864, 1024, 2048, 2592, 4000, 4096, 12000, 36864, 0]

/-- The sizes `pffft_validate(cplx)` actually validates (lines 354-358):
the loop walks `Ntest` until the 0 terminator and skips N=16 in the real
domain (`if (N == 16 && !cplx) continue;`). -/
def validateCalls (cplx : Bool) : List ℤ :=
  (NtestArr.takeWhile fun n => !(n == 0)).filter fun N => !(N == 16 && !cplx)

/-- `Npow2[]` of `main` (lines 956-957): `1 << k` for k = 1..20, then the
-1 terminator. -/
def NpowTwoSizes : List ℤ :=
  (List.range 21).map fun k => if k + 1 = 21 then -1 else 2 ^ (k + 1)

/-- The `(N, domain)` pairs the default table-format benchmark sweep
(lines 1076-1092) hands to `benchmark_ffts`: for each size until the
terminator (`Nvalues[i] > 0`), first the real domain when `benchReal`,
then the complex domain when `benchCplx`.  `true` marks the complex
domain. -/
def benchSweep (benchReal benchCplx : Bool) (sizes : List ℤ) : List (ℤ × Bool) :=
  (sizes.takeWhile fun n => decide (0 < n)).foldr
    (fun N acc =>
      (if benchReal then [(N, false)] else []) ++
        (if benchCplx then [(N, true)] else []) ++ acc)
    []

/-- A concrete build with only the unconditional backends (no veclib, no
fftw, no green, no kiss) and a successful pffft setup. -/
def cfgNone : BenchConfig :=
  { haveVeclib := false, haveFftw := false, haveGreen := false,
    haveKiss := false, pffftSetupOk := true, fftwAutoMeasured := false }

/-- A concrete build with green-ffts compiled in. -/
def cfgGreen : BenchConfig :=
  { haveVeclib := false, haveFftw := false, haveGreen := true,
    haveKiss := false, pffftSetupOk := true, fftwAutoMeasured := false }

/-- Abstract timing results that are all 1. -/
def measOne : Algo → MeasType → ℚ := fun _ _ => 1

/-! ## Helper lemmas -/

lemma fabs_nonneg (q : ℚ) : 0 ≤ fabs q := by
  unfold fabs; split <;> linarith

lemma le_foldl_max (l : List ℚ) (init : ℚ) : init ≤ l.foldl max init := by
  induction l generalizing init with
  | nil => exact le_rfl
  | cons a l ih => exact le_trans (le_max_left _ _) (ih (max init a))

lemma lt_foldl_max_iff (t : ℚ) (l : List ℚ) (init : ℚ) :
    t < l.foldl max init ↔ t < init ∨ ∃ x ∈ l, t < x := by
  induction l generalizing init with
  | nil => simp
  | cons a l ih =>
    rw [List.foldl_cons, ih (max init a), lt_max_iff]
    constructor
    · rintro ((h | h) | ⟨x, hx, hlt⟩)
      · exact Or.inl h
      · exact Or.inr ⟨a, List.mem_cons_self a l, h⟩
      · exact Or.inr ⟨x, List.mem_cons_of_mem a hx, hlt⟩
    · rintro (h | ⟨x, hx, hlt⟩)
      · exact Or.inl (Or.inl h)
      · rcases List.mem_cons.mp hx with rfl | hx
        · exact Or.inl (Or.inr hlt)
        · exact Or.inr ⟨x, hx, hlt⟩

lemma cIntOf_of_nonneg (q : ℚ) (h : 0 ≤ q) : cIntOf q = ⌊q⌋ := by
  unfold cIntOf; exact if_neg (not_lt.mpr h)

lemma Log2_512 : Log2 512 = 9 := by decide

lemma one_le_Log2Go (fuel v : ℕ) (hv : 2 ≤ v) (hf : 1 ≤ fuel) :
    1 ≤ Log2Go fuel v := by
  cases fuel with
  | zero => omega
  | succ fuel =>
    unfold Log2Go
    rw [if_neg (by omega)]
    omega

lemma one_le_Log2 (v : ℕ) (hv : 2 ≤ v) : 1 ≤ Log2 v :=
  one_le_Log2Go v v hv (by omega)

lemma calLoop_spec (clock : ℕ → ℚ) (tstop : ℚ) :
    ∀ (fuel iter0 j0 iter j : ℕ),
      calLoop clock tstop fuel iter0 j0 = some (iter, j) →
      j0 ≤ j ∧ iter = iter0 + 512 * (j - j0 + 1) ∧ ¬ clock j < tstop ∧
        ∀ m, j0 ≤ m → m < j → clock m < tstop := by
  intro fuel
  induction fuel with
  | zero => intro iter0 j0 iter j h; exact absurd h (by simp [calLoop])
  | succ fuel ih =>
    intro iter0 j0 iter j h
    unfold calLoop at h
    by_cases hc : clock j0 < tstop
    · rw [if_pos hc] at h
      obtain ⟨hle, hiter, hstop, hbelow⟩ := ih (iter0 + 512) (j0 + 1) iter j h
      refine ⟨by omega, by omega, hstop, ?_⟩
      intro m hm hmj
      rcases Nat.eq_or_lt_of_le hm with rfl | hm'
      · exact hc
      · exact hbelow m hm' hmj
    · rw [if_neg hc] at h
      simp only [Option.some.injEq, Prod.mk.injEq] at h
      obtain ⟨h1, h2⟩ := h
      subst h2
      exact ⟨le_rfl, by omega, hc, fun m hm hmj => by omega⟩

/-! ## The claims -/

/-- Claim C1 (code_bug evidence).  The round-trip check of
`pffft_validate_N` (lines 301-306) never terminates the process: its
mismatch branch runs `printf(...); break;` and the `exit(1)` written after
the `break` is dead code, so the loop is left without aborting — even on
an input whose round-trip error exceeds the `1e-3 * ref_max` tolerance,
such as `in[0] = 1`, `out[0] = 0`, `ref_max = 1`.  By contrast the
forward-mismatch branch (lines 286-287) does reach its `exit(1)`. -/
theorem roundtrip_mismatch_never_aborts :
    (∀ (refMax : ℚ) (pairs : List (ℚ × ℚ)),
      roundtripCheckAborts refMax pairs = false) ∧
    (1 / 1000 : ℚ) * 1 < fabs ((1 : ℚ) - 0) ∧
    roundtripCheckAborts 1 [(1, 0)] = false ∧
    execStmts roundtripMismatchBody = Outcome.broke ∧
    execStmts forwardMismatchBody = Outcome.exited ∧
    forwardCheckAborts 1 [(1, 0)] = true := by
  refine ⟨?_, by norm_num [fabs], ?_, rfl, rfl, ?_⟩
  · intro refMax pairs
    induction pairs with
    | nil => rfl
    | cons p rest ih =>
      obtain ⟨x, y⟩ := p
      by_cases h : (1 / 1000 : ℚ) * refMax < fabs (x - y) <;>
        simp [roundtripCheckAborts, h, execStmts, roundtripMismatchBody, ih]
  · simp [roundtripCheckAborts, execStmts, roundtripMismatchBody, fabs]
  · simp [forwardCheckAborts, execStmts, forwardMismatchBody, fabs]
    norm_num

/-- Claim C2 (counterexample).  In the green-ffts timing loop for the real
domain (lines 713-714) the two transform calls are not followed by any
sentinel assert, although the backend is compiled in (with
HAVE_GREEN_FFTS) and its complex-domain loop does check after every
call. -/
theorem green_real_loop_has_unchecked_calls :
    compiledInAlgo cfgGreen Algo.green = true ∧
    checkedAfterEachCall (loopBody Algo.green false) = false ∧
    checkedAfterEachCall (loopBody Algo.green true) = true := by
  refine ⟨rfl, rfl, rfl⟩

/-- Claim C2 (amended).  In every timing loop of `benchmark_ffts` other
than the green-ffts real-domain loop, the sentinel cell is re-checked by
an assert immediately after every individual transform call, and such an
assert aborts the process exactly when the sentinel no longer holds
12345.0. -/
theorem sentinel_check_coverage :
    (∀ (a : Algo) (cplx : Bool), ¬(a = Algo.green ∧ cplx = false) →
      checkedAfterEachCall (loopBody a cplx) = true) ∧
    (∀ x : ℚ, sentinelAssert x = false ↔ ¬ x = checkVal) ∧
    checkVal = 12345 := by
  refine ⟨by decide, ?_, rfl⟩
  intro x
  simp [sentinelAssert]

/-- Claim C2 (witness): the coverage theorem applied to the fftpack
real-domain loop, and an abort of the sentinel assert on a clobbered
value. -/
theorem sentinel_check_coverage_witness :
    checkedAfterEachCall (loopBody Algo.fftpack false) = true ∧
    sentinelAssert 0 = false :=
  ⟨sentinel_check_coverage.1 Algo.fftpack false (by decide),
   (sentinel_check_coverage.2.1 0).mpr (by decide)⟩

/-- Claim C6.  Reordering a native-order transform output toward canonical
order and then back toward native order reproduces it exactly (the
equality of the model is exact, hence bit-for-bit on the embedded values);
this is the double `pffft_zreorder` of lines 265-269, for every size `n`
and every layout permutation, hence for every swept `(N, domain)`.
The reorder itself is modelled from the spec since pffft.c is not under
src/. -/
theorem zreorder_roundtrip_exact {n : ℕ} (σ : Equiv.Perm (Fin n))
    (x : Fin n → ℚ) :
    zreorder σ Direction.backward (zreorder σ Direction.forward x) = x :=
  funext fun i => congrArg x (σ.apply_symm_apply i)

/-- Claim C7.  The determinism checks of `pffft_validate_N` always pass:
after the buffer sequence of lines 256-262 the out-of-place forward result
saved in `tmp2` equals the in-place forward result in `tmp`, and after
lines 291-298 the out-of-place backward result saved in `tmp2` equals the
in-place backward result in `out` — for every pure transform function and
every initial buffer contents, hence for both coefficient orderings
(`pffft_transform` and `pffft_transform_ordered` are both instances of the
quantified `f`/`g`) and every validated `(N, domain)`.  Transforms are
modelled from the spec as pure functions of their input buffer. -/
theorem alias_checks_always_pass (f g : List ℚ → List ℚ) (b : Bufs) :
    (forwardAliasCheck f b).tmp2 = (forwardAliasCheck f b).tmp ∧
    (backwardAliasCheck g b).tmp2 = (backwardAliasCheck g b).out :=
  ⟨rfl, rfl⟩

/-- Claim C3.  Whenever the calibration probe terminates, its loop has run
forward+inverse pairs until the sampled clock reached `t0 + 0.25` — so at
least 0.25 seconds of clock time elapsed — and the returned value is
exactly `iter * (512 * log2 512) / elapsed` with `log2 512 = 9`,
`iter` the number of completed forward+inverse pairs and
`elapsed = clock j - t0` the measured probe time.  The probe body is
domain-independent, so this holds for the real and the complex probe
alike. -/
theorem cal_benchmark_normalization (clock : ℕ → ℚ) (t0 : ℚ) (fuel : ℕ)
    (r : ℚ) (h : cal_benchmark 512 clock t0 fuel = some r) :
    ∃ iter j, calLoop clock (t0 + 1 / 4) fuel 0 0 = some (iter, j) ∧
      r = (iter : ℚ) * (512 * 9) / (clock j - t0) ∧
      (1 / 4 : ℚ) ≤ clock j - t0 ∧ iter = 512 * (j + 1) := by
  unfold cal_benchmark at h
  rw [Option.map_eq_some'] at h
  obtain ⟨⟨iter, j⟩, hcl, hval⟩ := h
  obtain ⟨hle, hiter, hstop, hbelow⟩ :=
    calLoop_spec clock (t0 + 1 / 4) fuel 0 0 iter j hcl
  refine ⟨iter, j, hcl, ?_, ?_, by omega⟩
  · rw [← hval, Log2_512]
    push_cast
    ring
  · have := not_lt.mp hstop
    linarith

/-- Claim C3 (witness): a probe whose single 512-pair block already passes
the 250 ms mark returns `512 * (512 * 9) / 1 = 2359296`. -/
theorem cal_benchmark_normalization_witness :
    cal_benchmark 512 (fun _ => (1 : ℚ)) 0 1 = some 2359296 ∧
    (∃ iter j, calLoop (fun _ => (1 : ℚ)) (0 + 1 / 4) 1 0 0 = some (iter, j) ∧
      (2359296 : ℚ) = (iter : ℚ) * (512 * 9) / (1 - 0) ∧
      (1 / 4 : ℚ) ≤ (1 : ℚ) - 0 ∧ iter = 512 * (j + 1)) := by
  have h : cal_benchmark 512 (fun _ => (1 : ℚ)) 0 1 = some 2359296 := by
    simp only [cal_benchmark, calLoop, Log2_512]
    norm_num
  exact ⟨h, cal_benchmark_normalization (fun _ => (1 : ℚ)) 0 1 2359296 h⟩

/-- Claim C10.  The probe loop samples the clock once per 512-pair block,
so on exit the pair count is `512 * (blocks)`: a positive multiple of 512
(at least one block always runs, the loop being do-while).  The elapsed
time can overshoot the 0.25 s window by at most the duration of the final
block: `elapsed - 0.25 ≤ clock j - prev`, where `prev` is the sample
before the final block (`t0` when only one block ran). -/
theorem cal_loop_block_granularity (clock : ℕ → ℚ) (t0 : ℚ)
    (fuel iter j : ℕ)
    (h : calLoop clock (t0 + 1 / 4) fuel 0 0 = some (iter, j)) :
    iter = 512 * (j + 1) ∧ 512 ≤ iter ∧
      (clock j - t0) - 1 / 4 ≤
        clock j - (if j = 0 then t0 else clock (j - 1)) := by
  obtain ⟨hle, hiter, hstop, hbelow⟩ :=
    calLoop_spec clock (t0 + 1 / 4) fuel 0 0 iter j h
  refine ⟨by omega, by omega, ?_⟩
  by_cases hj : j = 0
  · rw [if_pos hj]
    linarith
  · rw [if_neg hj]
    have hprev : clock (j - 1) < t0 + 1 / 4 := hbelow (j - 1) (by omega) (by omega)
    linarith

/-- Claim C10 (witness): a probe whose first block ends at 1/8 s and whose
second ends at 1/4 s runs exactly 1024 pairs (two blocks), and the
overshoot (here 0) is bounded by the final block's duration (1/8 s). -/
theorem cal_loop_block_granularity_witness :
    calLoop (fun m => if m = 0 then (1 / 8 : ℚ) else 1 / 4) (0 + 1 / 4) 3 0 0 =
      some (1024, 1) ∧
    ((1024 : ℕ) = 512 * (1 + 1) ∧ (512 : ℕ) ≤ 1024 ∧
      ((1 / 4 : ℚ) - 0) - 1 / 4 ≤ (1 / 4 : ℚ) - 1 / 8) := by
  have h : calLoop (fun m => if m = 0 then (1 / 8 : ℚ) else 1 / 4)
      (0 + 1 / 4) 3 0 0 = some (1024, 1) := by
    simp only [calLoop]
    norm_num
  exact ⟨h, cal_loop_block_granularity _ 0 3 1024 1 h⟩

/-- Claim C4.  With the budget fixed at 0.150 s, the target iteration
count of `benchmark_ffts` is `max(1, floor(budget * iterCal / (N * log2 N)))`
and the step-block size is
`max(1, floor(0.01 * budget * iterCal / (N * log2 N)))` (the C `(int)`
cast truncates toward zero, which is the floor for these nonnegative
values); and doubling the budget never decreases the target count.
`Log2` is the source's integer log2; the hypotheses say only that the
calibration factor is nonnegative and the size is one of the swept sizes
(all are at least 2). -/
theorem iteration_target_formulas (c : ℚ) (N : ℕ) (hc : 0 ≤ c)
    (hN : 2 ≤ N) :
    max_iter (3 / 20) c N = max 1 ⌊(3 / 20) * c / ((N : ℚ) * (Log2 N : ℚ))⌋ ∧
    step_iter (3 / 20) c N =
      max 1 ⌊(1 / 100) * ((3 / 20) * c) / ((N : ℚ) * (Log2 N : ℚ))⌋ ∧
    ∀ b : ℚ, 0 ≤ b → max_iter b c N ≤ max_iter (2 * b) c N := by
  have hL : (1 : ℚ) ≤ (Log2 N : ℚ) := by exact_mod_cast one_le_Log2 N hN
  have hNQ : (2 : ℚ) ≤ (N : ℚ) := by exact_mod_cast hN
  have hw : (0 : ℚ) < (Log2 N : ℚ) * (N : ℚ) := by nlinarith
  have hnum : 0 ≤ numIter (3 / 20) c N :=
    div_nonneg (mul_nonneg (by norm_num) hc) (le_of_lt hw)
  refine ⟨?_, ?_, ?_⟩
  · unfold max_iter
    rw [cIntOf_of_nonneg _ hnum]
    congr 1
    unfold numIter
    ring_nf
  · unfold step_iter
    rw [cIntOf_of_nonneg _ (mul_nonneg (by norm_num) hnum)]
    congr 1
    unfold numIter
    ring_nf
  · intro b hb
    have h1 : 0 ≤ numIter b c N :=
      div_nonneg (mul_nonneg hb hc) (le_of_lt hw)
    have h2 : 0 ≤ numIter (2 * b) c N :=
      div_nonneg (mul_nonneg (by linarith) hc) (le_of_lt hw)
    unfold max_iter
    rw [cIntOf_of_nonneg _ h1, cIntOf_of_nonneg _ h2]
    refine max_le_max le_rfl (Int.floor_le_floor ?_)
    unfold numIter
    exact (div_le_div_iff_of_pos_right hw).mpr (by nlinarith)

/-- Claim C4 (witness): the formulas instantiated at calibration factor
100000 and N = 512. -/
theorem iteration_target_formulas_witness :
    (0 : ℚ) ≤ 100000 ∧ (2 : ℕ) ≤ 512 ∧
    (max_iter (3 / 20) 100000 512 =
        max 1 ⌊(3 / 20) * (100000 : ℚ) / ((512 : ℚ) * (Log2 512 : ℚ))⌋ ∧
      step_iter (3 / 20) 100000 512 =
        max 1 ⌊(1 / 100) * ((3 / 20) * (100000 : ℚ)) /
          ((512 : ℚ) * (Log2 512 : ℚ))⌋ ∧
      ∀ b : ℚ, 0 ≤ b → max_iter b 100000 512 ≤ max_iter (2 * b) 100000 512) :=
  ⟨by norm_num, by norm_num,
   iteration_target_formulas 100000 512 (by norm_num) (by norm_num)⟩

lemma squarePairs_of_pos (cplx : Bool) :
    ∀ (l : List (ℚ × ℚ)) (k : ℕ), cplx = true ∨ 0 < k →
      squarePairs cplx k l = complexSquareList l := by
  intro l
  induction l with
  | nil => intro k hk; rfl
  | cons p rest ih =>
    intro k hk
    obtain ⟨ar, ai⟩ := p
    simp only [squarePairs, if_pos hk]
    rw [ih (k + 2) (Or.inr (by omega))]
    rfl

/-- Claim C5.  The convolution-theorem check of `pffft_validate_N`
(lines 309-337): the expected value it compares against is the elementwise
complex square of the canonically reordered spectrum, except that in the
real domain the first two packed coefficients (the purely real DC and
Nyquist bins) are squared arithmetically (`ar*ar` and `ai*ai`); and the
check aborts the process (a reachable `exit(1)`, line 335) exactly when
the zconvolve output differs from that expected value at some index by
more than `1e-5` times the running maximum of the expected values'
magnitudes. -/
theorem zconvolve_check_tolerance (cplx : Bool) (spec : List (ℚ × ℚ))
    (act : List ℚ) :
    (convAborts cplx spec act = true ↔
      ∃ p ∈ (expectedSq cplx spec).zip act,
        (1 / 100000) * conv_max cplx spec < fabs (p.1 - p.2)) ∧
    expectedSq true spec = unpair (complexSquareList spec) ∧
    ∀ a0 a1 rest, expectedSq false ((a0, a1) :: rest) =
      a0 * a0 :: a1 * a1 :: unpair (complexSquareList rest) := by
  refine ⟨?_, ?_, ?_⟩
  · have hcm : (0 : ℚ) ≤ conv_max cplx spec := le_foldl_max _ 0
    have h0 : (0 : ℚ) ≤ (1 / 100000) * conv_max cplx spec :=
      mul_nonneg (by norm_num) hcm
    unfold convAborts conv_err
    rw [decide_eq_true_eq, lt_foldl_max_iff]
    simp only [List.mem_map]
    constructor
    · rintro (h | ⟨x, ⟨p, hp, rfl⟩, hlt⟩)
      · exact absurd h (not_lt.mpr h0)
      · exact ⟨p, hp, hlt⟩
    · rintro ⟨p, hp, hlt⟩
      exact Or.inr ⟨fabs (p.1 - p.2), ⟨p, hp, rfl⟩, hlt⟩
  · exact congrArg unpair (squarePairs_of_pos true spec 0 (Or.inl rfl))
  · intro a0 a1 rest
    show unpair (squarePairs false 0 ((a0, a1) :: rest)) = _
    rw [squarePairs, if_neg (by simp),
      squarePairs_of_pos false rest 2 (Or.inr (by omega))]
    rfl

/-- Claim C5 (witness): a concrete complex-domain spectrum `[(1, 1)]`
(expected square `[0, 2]`) against a zconvolve output `[0, 0]` exceeds
the tolerance and makes the check abort. -/
theorem zconvolve_check_tolerance_witness :
    convAborts true [(1, 1)] [0, 0] = true ∧
    (∃ p ∈ (expectedSq true [(1, 1)]).zip [0, 0],
      (1 / 100000) * conv_max true [(1, 1)] < fabs (p.1 - p.2)) := by
  have h : convAborts true [(1, 1)] [0, 0] = true := by
    norm_num [convAborts, conv_err, conv_max, expectedSq, squarePairs, unpair,
      fabs, max_def, decide_eq_true_eq]
  exact ⟨h, (zconvolve_check_tolerance true [(1, 1)] [0, 0]).1.mp h⟩

lemma notApplicable_not_measured (cfg : BenchConfig) (a : Algo)
    (h : notApplicable cfg a = true) : measuredInRun cfg a = false := by
  cases a <;> simp_all [notApplicable, measuredInRun]

lemma notApplicable_no_copy (cfg : BenchConfig) (a : Algo)
    (h : notApplicable cfg a = true) :
    ¬(a = Algo.fftwAuto ∧ cfg.haveFftw = true) := by
  rintro ⟨rfl, hf⟩
  simp [notApplicable, hf] at h

/-- Claim C8 (counterexample).  In a build without green-ffts, the
green/(N, domain) cell is not applicable, yet every recorded field holds
exactly 0.0 — the initialization value, identical to a plain zero
measurement and in particular not a negative sentinel. -/
theorem na_cell_stored_as_plain_zero :
    notApplicable cfgNone Algo.green = true ∧
    finalTable cfgNone measOne MeasType.durNs Algo.green = 0 ∧
    finalTable cfgNone measOne MeasType.mflops Algo.green = 0 ∧
    ¬ finalTable cfgNone measOne MeasType.durNs Algo.green < 0 := by
  refine ⟨rfl, ?_, ?_, ?_⟩ <;>
    simp [finalTable, mainTable, cfgNone, measuredInRun]

/-- Claim C8 (amended).  A backend that is absent from the build or whose
plan preparation failed records nothing: every field of its `tmeas` cell
keeps the 0.0 it was initialized with (lines 486-490) — a plain zero, not
a negative or otherwise distinct sentinel; the only marker is the
per-backend `haveAlgo` flag staying unset.  Conversely a cell whose
mflops field is populated (nonzero) belongs to a backend that really ran
a measured loop. -/
theorem na_cells_remain_zero (cfg : BenchConfig) (meas : Algo → MeasType → ℚ)
    (a : Algo) :
    (notApplicable cfg a = true → ∀ t, finalTable cfg meas t a = 0) ∧
    (finalTable cfg meas MeasType.mflops a ≠ 0 →
      measuredInRun cfg a = true) := by
  constructor
  · intro h t
    have hm := notApplicable_not_measured cfg a h
    have hc := notApplicable_no_copy cfg a h
    cases t <;> simp [finalTable, mainTable, hm, hc]
  · intro hne
    cases hmeas : measuredInRun cfg a with
    | true => rfl
    | false =>
      exfalso
      apply hne
      by_cases hc : a = Algo.fftwAuto ∧ cfg.haveFftw = true
      · obtain ⟨rfl, hf⟩ := hc
        simp [finalTable, mainTable, hmeas, hf]
      · simp [finalTable, mainTable, hmeas, hc]

/-- Claim C8 (witness): the amended theorem applied to the missing green
backend of the no-optional-backends build, at the mflops field. -/
theorem na_cells_remain_zero_witness :
    notApplicable cfgNone Algo.green = true ∧
    finalTable cfgNone measOne MeasType.mflops Algo.green = 0 :=
  ⟨rfl, (na_cells_remain_zero cfgNone measOne Algo.green).1 rfl MeasType.mflops⟩

/-- Claim C9 (counterexample).  N=16 in the real domain is skipped by the
validation sweep, but the default power-of-two benchmark sweep does hand
(16, real) to `benchmark_ffts`, and that call populates Measurement
fields (the fftpack cell is always measured), so a Measurement row for
the (16, real) cell is produced. -/
theorem n16_real_is_benchmarked :
    ((16 : ℤ), false) ∈ benchSweep true true NpowTwoSizes ∧
    (16 : ℤ) ∉ validateCalls false ∧
    finalTable cfgNone measOne MeasType.iter Algo.fftpack = 1 := by
  refine ⟨by decide, by decide, ?_⟩
  simp [finalTable, mainTable, cfgNone, measuredInRun, measOne]

/-- Claim C9 (amended).  N=16/real is skipped by the validation harness
only (no failure, and N=16/complex is validated); the benchmark sweep
still runs `benchmark_ffts` for (16, real) — the commented-out size filter
at line 1077 does not execute — and that call always records at least the
fftpack Measurement cell. -/
theorem n16_real_skipped_only_in_validation :
    (16 : ℤ) ∉ validateCalls false ∧
    (16 : ℤ) ∈ validateCalls true ∧
    ((16 : ℤ), false) ∈ benchSweep true true NpowTwoSizes ∧
    ∀ (cfg : BenchConfig) (meas : Algo → MeasType → ℚ),
      measuredInRun cfg Algo.fftpack = true ∧
      finalTable cfg meas MeasType.iter Algo.fftpack =
        meas Algo.fftpack MeasType.iter := by
  refine ⟨by decide, by decide, by decide, ?_⟩
  intro cfg meas
  refine ⟨rfl, ?_⟩
  simp [finalTable, mainTable, measuredInRun]

/-- Claim C9 (witness): the fftpack cell of a (16, real) benchmark call
holds the recorded iteration count. -/
theorem n16_real_skip_witness :
    finalTable cfgNone measOne MeasType.iter Algo.fftpack = 1 := by
  have h := (n16_real_skipped_only_in_validation.2.2.2 cfgNone measOne).2
  simpa [measOne] using h

end BenchPffft
